import Mathlib

/-!
Shallow embedding of the Automated Restocking Optimization Engine
(`warehouse.py`): the supplier model, per-SKU inventory items, the
day-stepped warehouse simulation loop, and the post-solve step of the
LP restocking strategy.  Python dictionaries are modelled as a key list
(insertion order) together with a total lookup function; the process-wide
random stream (`random.seed` / `random.randint`) is modelled as an
abstract stream of naturals with a cursor, one element consumed per draw.
Money and rates (Python floats) are modelled as exact rationals.
-/

namespace Restock

/-- Deterministic model of the process-wide random stream: `random.seed`
fixes the stream, each draw reads one element and advances the cursor. -/
structure RNG where
  stream : Nat → Nat
  idx : Nat

/-- Model of `random.randint(lo, hi)`: one inclusive in-range draw
consuming exactly one element of the stream (in range whenever lo ≤ hi). -/
def randint (lo hi : Int) (g : RNG) : Int × RNG :=
  (lo + (((g.stream g.idx % (hi - lo + 1).toNat) : Nat) : Int),
   ⟨g.stream, g.idx + 1⟩)

/-- Python `round` on an exact rational: round half to even. -/
def pyRound (q : ℚ) : Int :=
  if q - (⌊q⌋ : ℚ) < (1/2 : ℚ) then ⌊q⌋
  else if (1/2 : ℚ) < q - (⌊q⌋ : ℚ) then ⌊q⌋ + 1
  else if ⌊q⌋ % 2 = 0 then ⌊q⌋ else ⌊q⌋ + 1

/-- `SupplierAgent`: immutable supplier configuration
(`lead_time_range = (low, high)`). -/
structure Supplier where
  name : String
  min_order : Int
  max_supply_per_order : Int
  lead_time_range : Int × Int
  fill_rate : ℚ
deriving DecidableEq

/-- `SupplierAgent.min_order_qty(self, supplier_self=None)`: returns
`self.min_order`, ignoring the oddly passed argument. -/
def Supplier.min_order_qty (s : Supplier) (_supplier_self : Supplier) : Int :=
  s.min_order

/-- `SupplierAgent.place_order(sku, requested_qty, day)`.  Returns the
pair `(accepted_qty, arrival_day?)` together with the advanced random
stream; rejected orders (`requested_qty <= 0` or below `min_order`)
return `(0, none)` without consuming a draw. -/
def Supplier.place_order (s : Supplier) (_sku : String) (requested_qty day : Int)
    (g : RNG) : (Int × Option Int) × RNG :=
  if requested_qty ≤ 0 then ((0, none), g)
  else if requested_qty < s.min_order then ((0, none), g)
  else
    let accepted : Int := min requested_qty s.max_supply_per_order
    let accepted2 : Int := pyRound ((accepted : ℚ) * s.fill_rate)
    let lt := randint s.lead_time_range.1 s.lead_time_range.2 g
    ((accepted2, some (day + lt.1)), lt.2)

/-- `InventoryItem`: per-SKU state, accounting counters, and the four
per-day history sequences. -/
structure InventoryItem where
  sku : String
  name : String
  stock : Int
  annual_demand : ℚ
  unit_cost : ℚ
  holding_cost : ℚ
  order_cost : ℚ
  max_capacity : Int
  supplier : Supplier
  daily_demand : ℚ
  stock_history : List Int
  demand_history : List Int
  reorder_history : List Int
  cost_history : List ℚ
  total_ordered : Int
  total_cost : ℚ
  lost_sales : Int
deriving DecidableEq

/-- `InventoryItem.__init__`: fresh item with empty histories and zero
counters; `daily_demand = annual_demand / 365`. -/
def InventoryItem.init (sku name : String) (initial_stock : Int)
    (annual_demand unit_cost holding_cost order_cost : ℚ)
    (max_capacity : Int) (supplier : Supplier) : InventoryItem :=
  ⟨sku, name, initial_stock, annual_demand, unit_cost, holding_cost, order_cost,
   max_capacity, supplier, annual_demand / 365, [], [], [], [], 0, 0, 0⟩

/-- `InventoryItem.sell(qty)`: returns the updated item and `(sold, lost)`. -/
def InventoryItem.sell (it : InventoryItem) (qty : Int) :
    InventoryItem × Int × Int :=
  let sold := min it.stock qty
  let lost := qty - sold
  ({ it with stock := it.stock - sold, lost_sales := it.lost_sales + lost },
   sold, lost)

/-- `InventoryItem.receive(qty)`: returns the updated item and the
accepted quantity (clamped at remaining capacity). -/
def InventoryItem.receive (it : InventoryItem) (qty : Int) :
    InventoryItem × Int :=
  let accepted := min qty (max 0 (it.max_capacity - it.stock))
  ({ it with stock := it.stock + accepted }, accepted)

/-- `InventoryItem.add_cost_for_order(qty)`. -/
def InventoryItem.add_cost_for_order (it : InventoryItem) (qty : Int) :
    InventoryItem :=
  if qty ≤ 0 then it
  else { it with
    total_cost := it.total_cost + (it.order_cost + (qty : ℚ) * it.unit_cost),
    total_ordered := it.total_ordered + qty }

/-- `InventoryItem.record_day(demand, requested)`: appends one entry to
each history sequence. -/
def InventoryItem.record_day (it : InventoryItem) (demand requested : Int) :
    InventoryItem :=
  { it with
    stock_history := it.stock_history ++ [it.stock],
    demand_history := it.demand_history ++ [demand],
    reorder_history := it.reorder_history ++ [requested],
    cost_history := it.cost_history ++ [it.total_cost] }

/-- `Warehouse` state.  The Python dicts `items` and `incoming`
(a `defaultdict(list)`) are modelled as key lists in insertion order
plus total lookup functions (absent incoming key = empty queue).
`orderLog` is ghost instrumentation recording every accepted order (sku,
accepted qty), appended exactly where `_place_orders` charges the cost;
no modelled code reads it — it only serves to state accounting facts.
The Python `Warehouse` also stores the active strategy; since a strategy
reads the warehouse itself, the strategy is passed as a parameter to the
simulation functions below instead of being stored in the structure. -/
structure Warehouse where
  itemKeys : List String
  itemMap : String → Option InventoryItem
  incomingKeys : List String
  incomingMap : String → List (Int × Int)
  orderLog : List (String × Int)

/-- A restocking strategy: `plan(warehouse, day)` as a mapping from SKU to
requested quantity, in dict insertion order. -/
def Strategy : Type := Warehouse → Int → List (String × Int)

/-- `Warehouse.register_item(item)`. -/
def Warehouse.register_item (w : Warehouse) (it : InventoryItem) : Warehouse :=
  { w with
    itemKeys := if it.sku ∈ w.itemKeys then w.itemKeys else w.itemKeys ++ [it.sku],
    itemMap := fun s => if s = it.sku then some it else w.itemMap s }

/-- A fresh warehouse with no items, no pending arrivals. -/
def Warehouse.empty : Warehouse :=
  ⟨[], fun _ => none, [], fun _ => [], []⟩

/-- The `while queue and queue[0][0] <= day` loop of
`Warehouse._receive_arrivals`: pops entries from the head of one SKU's
pending queue while the head is due, crediting each popped quantity to
the item (when registered) via `receive`. -/
def drainQueue (day : Int) :
    List (Int × Int) → Option InventoryItem →
    List (Int × Int) × Option InventoryItem
  | [], oit => ([], oit)
  | (arrival_day, qty) :: rest, oit =>
    if arrival_day ≤ day then
      drainQueue day rest (oit.map (fun it => (it.receive qty).1))
    else ((arrival_day, qty) :: rest, oit)

/-- The `for sku, queue in list(self.incoming.items())` loop of
`_receive_arrivals`, over the snapshot of incoming keys. -/
def arrivalsFold (day : Int) :
    List String → (String → List (Int × Int)) →
    (String → Option InventoryItem) →
    (String → List (Int × Int)) × (String → Option InventoryItem)
  | [], inc, m => (inc, m)
  | sku :: rest, inc, m =>
    let r := drainQueue day (inc sku) (m sku)
    arrivalsFold day rest
      (fun s => if s = sku then r.1 else inc s)
      (fun s => if s = sku then r.2 else m s)

/-- `Warehouse._receive_arrivals(day)`. -/
def Warehouse.receive_arrivals (w : Warehouse) (day : Int) : Warehouse :=
  let r := arrivalsFold day w.incomingKeys w.incomingMap w.itemMap
  { w with incomingMap := r.1, itemMap := r.2 }

/-- The demand-and-sales loop of `Warehouse.simulate` (step 2): for each
item in registration order, draw demand from randint(5, 15), sell it, and
record the draw in the day's demand table (a dict modelled as a function
with default 0). -/
def sellFold :
    List String → (String → Option InventoryItem) → RNG → (String → Int) →
    (String → Option InventoryItem) × RNG × (String → Int)
  | [], m, g, ds => (m, g, ds)
  | sku :: rest, m, g, ds =>
    let d := randint 5 15 g
    sellFold rest
      (fun s => if s = sku then (m sku).map (fun it => (it.sell d.1).1) else m s)
      d.2
      (fun s => if s = sku then d.1 else ds s)

/-- `plan.get(sku, 0)`: first-match lookup in the plan with default 0. -/
def planGet (plan : List (String × Int)) (sku : String) : Int :=
  match plan.find? (fun p => p.1 == sku) with
  | some p => p.2
  | none => 0

/-- The loop body of `Warehouse._place_orders(plan, day)`: skip
non-positive requests and unknown SKUs; otherwise call the item's
supplier, and when `accepted > 0` with a real arrival day, enqueue the
pending arrival and charge the cost (also appending to the ghost log). -/
def ordersFold (day : Int) :
    List (String × Int) → Warehouse → RNG → Warehouse × RNG
  | [], w, g => (w, g)
  | (sku, req) :: rest, w, g =>
    if req ≤ 0 then ordersFold day rest w g
    else
      match w.itemMap sku with
      | none => ordersFold day rest w g
      | some it =>
        let r := it.supplier.place_order sku req day g
        match r.1.2 with
        | some arrival =>
          if 0 < r.1.1 then
            ordersFold day rest
              { w with
                incomingKeys :=
                  if sku ∈ w.incomingKeys then w.incomingKeys
                  else w.incomingKeys ++ [sku],
                incomingMap := fun s =>
                  if s = sku then w.incomingMap sku ++ [(arrival, r.1.1)]
                  else w.incomingMap s,
                itemMap := fun s =>
                  if s = sku then some (it.add_cost_for_order r.1.1)
                  else w.itemMap s,
                orderLog := w.orderLog ++ [(sku, r.1.1)] }
              r.2
          else ordersFold day rest w r.2
        | none => ordersFold day rest w r.2

/-- `Warehouse._place_orders(plan, day)`. -/
def Warehouse.place_orders (w : Warehouse) (plan : List (String × Int))
    (day : Int) (g : RNG) : Warehouse × RNG :=
  ordersFold day plan w g

/-- The recording loop of `Warehouse.simulate` (step 5): one
`record_day(demand, requested)` per registered item. -/
def recordFold (ds pl : String → Int) :
    List String → (String → Option InventoryItem) →
    (String → Option InventoryItem)
  | [], m => m
  | sku :: rest, m =>
    recordFold ds pl rest
      (fun s =>
        if s = sku then (m sku).map (fun it => it.record_day (ds sku) (pl sku))
        else m s)

/-- One iteration of the day loop in `Warehouse.simulate`: arrivals,
demand and sales, planning, ordering, recording. -/
def Warehouse.simulate_day (w : Warehouse) (strat : Strategy) (day : Int)
    (g : RNG) : Warehouse × RNG :=
  let w1 := w.receive_arrivals day
  let sd := sellFold w1.itemKeys w1.itemMap g (fun _ => 0)
  let w2 : Warehouse := { w1 with itemMap := sd.1 }
  let plan := strat w2 day
  let po := w2.place_orders plan day sd.2.1
  let m4 := recordFold sd.2.2 (planGet plan) po.1.itemKeys po.1.itemMap
  ({ po.1 with itemMap := m4 }, po.2)

/-- `Warehouse.simulate(days, start_day, seed)`: the day loop; seeding is
the choice of the initial stream `g`. -/
def Warehouse.simulate (w : Warehouse) (strat : Strategy) :
    Nat → Int → RNG → Warehouse × RNG
  | 0, _, g => (w, g)
  | Nat.succ n, day, g =>
    let r := w.simulate_day strat day g
    r.1.simulate strat n (day + 1) r.2

/-- Total lost sales over all registered items
(`sum(item.lost_sales for item in self.items.values())`). -/
def Warehouse.totalLost (w : Warehouse) : Int :=
  (w.itemKeys.map (fun s =>
    match w.itemMap s with
    | some it => it.lost_sales
    | none => 0)).sum

/-- Cumulative demand over all items and days
(`sum(sum(item.demand_history) for item in self.items.values())`). -/
def Warehouse.totalDemand (w : Warehouse) : Int :=
  (w.itemKeys.map (fun s =>
    match w.itemMap s with
    | some it => it.demand_history.sum
    | none => 0)).sum

/-- `Warehouse.compute_service_level()`. -/
def Warehouse.compute_service_level (w : Warehouse) : ℚ :=
  if w.totalDemand ≤ 0 then 1
  else 1 - (w.totalLost : ℚ) / (w.totalDemand : ℚ)

/-- Outcome classes reported by the external LP solver
(`prob.status` after `prob.solve`). -/
inductive LPStatus where
  | optimal
  | infeasible
  | unbounded
  | notSolved
  | undefinedStatus
deriving DecidableEq

/-- The post-solve section of `LPStrategy.plan`: builds the returned plan
from the solver's variable values (`Q[sku].value()`, `None → 0`).  The
`item` referenced by the MOQ-escalation test is the loop variable left
over from the constraint-building loop, i.e. the item of the
last-iterated SKU.  The solver status argument is present because
`prob.solve` reports it, but — exactly as in the source — it is never
inspected. -/
def lpPostPlan (w : Warehouse) (_status : LPStatus)
    (qval : String → Option ℚ) : List (String × Int) :=
  match w.itemKeys.getLast? with
  | none => []
  | some lastSku =>
    match w.itemMap lastSku with
    | none => []
    | some item =>
      w.itemKeys.map (fun sku =>
        let q0 : Int :=
          match qval sku with
          | some v => pyRound v
          | none => 0
        (sku,
         if 0 < q0 ∧ q0 < item.supplier.min_order_qty item.supplier then
           item.supplier.min_order_qty item.supplier
         else q0))

/-- Per-item stock bounds: `0 ≤ stock ≤ max_capacity` now and at every
recorded day. -/
def ItemStockOk (it : InventoryItem) : Prop :=
  0 ≤ it.stock ∧ it.stock ≤ it.max_capacity ∧
    ∀ x ∈ it.stock_history, 0 ≤ x ∧ x ≤ it.max_capacity

/-- Stock bounds lifted to an optional item (vacuous for `none`). -/
def OptStockOk : Option InventoryItem → Prop
  | none => True
  | some it => ItemStockOk it

instance (it : InventoryItem) : Decidable (ItemStockOk it) :=
  inferInstanceAs (Decidable (0 ≤ it.stock ∧ it.stock ≤ it.max_capacity ∧
    ∀ x ∈ it.stock_history, 0 ≤ x ∧ x ≤ it.max_capacity))

instance (o : Option InventoryItem) : Decidable (OptStockOk o) :=
  match o with
  | none => isTrue trivial
  | some it => inferInstanceAs (Decidable (ItemStockOk it))

/-- All queued pending-arrival quantities are non-negative. -/
def QueueOk (w : Warehouse) : Prop :=
  ∀ s : String, ∀ p ∈ w.incomingMap s, 0 ≤ p.2

/-- The cross-day warehouse invariant: every item (registered or not)
satisfies the stock bounds and every pending quantity is non-negative. -/
def StockInv (w : Warehouse) : Prop :=
  (∀ s : String, OptStockOk (w.itemMap s)) ∧ QueueOk w

/-- Accepted quantities logged for one SKU. -/
def ordersFor (s : String) (log : List (String × Int)) : List Int :=
  (log.filter (fun p => p.1 == s)).map Prod.snd

/-- Accounting contract for one optional item against the order log:
`total_ordered` is the sum of its accepted quantities and `total_cost`
the sum of `order_cost + accepted · unit_cost` over the same orders. -/
def AccAt (log : List (String × Int)) (s : String) :
    Option InventoryItem → Prop
  | none => True
  | some it =>
    it.total_ordered = (ordersFor s log).sum ∧
    it.total_cost =
      ((ordersFor s log).map (fun a : Int => it.order_cost + (a : ℚ) * it.unit_cost)).sum

/-- The accounting invariant over the whole warehouse. -/
def AccInv (w : Warehouse) : Prop :=
  ∀ s : String, AccAt w.orderLog s (w.itemMap s)

/-- A run starts with zero counters and an empty order log. -/
def FreshCounters (w : Warehouse) : Prop :=
  w.orderLog = [] ∧
    ∀ s : String, ∀ it, w.itemMap s = some it →
      it.total_ordered = 0 ∧ it.total_cost = 0

/-- Service-level bookkeeping for one optional item: lost sales are
non-negative and never exceed the recorded cumulative demand. -/
def ServAt : Option InventoryItem → Prop
  | none => True
  | some it => 0 ≤ it.lost_sales ∧ it.lost_sales ≤ it.demand_history.sum

/-- Service-level invariant over the whole warehouse. -/
def ServInv (w : Warehouse) : Prop :=
  ∀ s : String, ServAt (w.itemMap s)

/-- A run starts with zero lost sales and empty demand histories. -/
def FreshServ (w : Warehouse) : Prop :=
  ∀ s : String, ∀ it, w.itemMap s = some it →
    it.lost_sales = 0 ∧ it.demand_history = []

/-- What `compute_service_level` guarantees after a run: the defining
formula, the `[0, 1]` bounds when cumulative demand is positive, and the
value 1 when cumulative demand is zero. -/
def ServiceLevelSpec (w : Warehouse) : Prop :=
  (w.totalDemand = 0 → w.compute_service_level = 1) ∧
  (0 < w.totalDemand →
    w.compute_service_level = 1 - (w.totalLost : ℚ) / (w.totalDemand : ℚ) ∧
    0 ≤ w.compute_service_level ∧ w.compute_service_level ≤ 1)

/-- The fields read by the accounting invariant. -/
def accFields (it : InventoryItem) : Int × ℚ × ℚ × ℚ :=
  (it.total_ordered, it.total_cost, it.order_cost, it.unit_cost)

/-- The fields read by the service-level invariant. -/
def servFields (it : InventoryItem) : Int × List Int :=
  (it.lost_sales, it.demand_history)

/-- The full functional contract of `SupplierAgent.place_order`: the MOQ
gate characterizes rejection, and an accepted order carries the
fill-rate-scaled capped quantity and an in-range lead time, consuming
exactly one draw. -/
def PlaceOrderContract (s : Supplier) (sku : String) (req day : Int)
    (g : RNG) : Prop :=
  ((s.place_order sku req day g).1 = (0, none) ↔ req ≤ 0 ∨ req < s.min_order) ∧
  (0 < req → s.min_order ≤ req →
    ∃ lt, s.lead_time_range.1 ≤ lt ∧ lt ≤ s.lead_time_range.2 ∧
      s.place_order sku req day g =
        ((pyRound (((min req s.max_supply_per_order : Int) : ℚ) * s.fill_rate),
          some (day + lt)), ⟨g.stream, g.idx + 1⟩))

/-- Concrete supplier mirroring the one built in `test.py`. -/
def suppEx : Supplier := ⟨"TestSup", 5, 200, (1, 2), 1⟩

/-- Concrete supplier with a tiny fill rate: a capped request of 10 is
scaled to round(10 · 1/100) = 0. -/
def suppTrickle : Supplier := ⟨"TrickleSup", 1, 1000, (1, 3), 1/100⟩

/-- Concrete fast supplier with a small minimum order quantity. -/
def suppA : Supplier := ⟨"FastSup", 2, 1000, (1, 3), 1⟩

/-- Concrete slow supplier with a large minimum order quantity. -/
def suppB : Supplier := ⟨"SlowSup", 50, 300, (4, 7), 1⟩

/-- Concrete item used in counterexamples and witnesses. -/
def itC7 : InventoryItem := InventoryItem.init "S1" "Soap" 10 365 10 (3/2) 20 100 suppEx

/-- Concrete item registered under SKU "A". -/
def itemA : InventoryItem := InventoryItem.init "A" "Alpha" 10 365 10 1 5 100 suppEx

/-- Concrete warehouse whose pending queue for "A" is not sorted by
arrival day: the due entry (2, 20) sits behind the undue entry (5, 10). -/
def wC1 : Warehouse :=
  ⟨["A"], fun s => if s = "A" then some itemA else none,
   ["A"], fun s => if s = "A" then [(5, 10), (2, 20)] else [], []⟩

/-- Item assigned to the small-MOQ supplier. -/
def itemA2 : InventoryItem := InventoryItem.init "A" "Alpha" 10 365 10 1 5 100 suppA

/-- Item assigned to the large-MOQ supplier, registered last. -/
def itemB2 : InventoryItem := InventoryItem.init "B" "Beta" 10 365 5 1 5 100 suppB

/-- Two-SKU warehouse whose SKUs use different suppliers. -/
def wC2 : Warehouse :=
  ⟨["A", "B"],
   fun s => if s = "A" then some itemA2 else if s = "B" then some itemB2 else none,
   [], fun _ => [], []⟩

/-- Solver values for `wC2`: Q_A = 3 (above A's own minimum 2),
Q_B = 60 (above B's minimum 50). -/
def qvC2 : String → Option ℚ :=
  fun s => if s = "A" then some 3 else if s = "B" then some 60 else none

/-- One-SKU warehouse for the infeasible-LP scenario. -/
def wC3 : Warehouse :=
  ⟨["A"], fun s => if s = "A" then some itemA2 else none, [], fun _ => [], []⟩

/-- Item assigned to the tiny-fill-rate supplier. -/
def itemT : InventoryItem := InventoryItem.init "T" "Trick" 10 365 10 1 5 100 suppTrickle

/-- One-SKU warehouse for the zero-accepted-quantity scenario. -/
def wC10 : Warehouse :=
  ⟨["T"], fun s => if s = "T" then some itemT else none, [], fun _ => [], []⟩

/-- A concrete seeded stream (stands for `random.seed(s)`). -/
def gEx : RNG := ⟨fun n => (7 * n + 3) % 11, 0⟩

/-- The trivial strategy: never order. -/
def stratNone : Strategy := fun _ _ => []

/-- A concrete strategy requesting 20 units of "A" every day. -/
def stratA : Strategy := fun _ _ => [("A", 20)]

/-- A concrete fresh item with valid initial stock. -/
def itRun : InventoryItem := InventoryItem.init "A" "Alpha" 50 365 10 1 10 500 suppEx

/-- A concrete fresh warehouse holding `itRun`, as a run would start. -/
def wRun : Warehouse := Warehouse.empty.register_item itRun

theorem randint_mem (lo hi : Int) (g : RNG) (h : lo ≤ hi) :
    lo ≤ (randint lo hi g).1 ∧ (randint lo hi g).1 ≤ hi := by
  unfold randint
  dsimp only
  have h0 : 0 < (hi - lo + 1).toNat := by omega
  have h3 := Nat.mod_lt (g.stream g.idx) h0
  have h4 : ((g.stream g.idx % (hi - lo + 1).toNat : Nat) : Int) <
      (((hi - lo + 1).toNat : Nat) : Int) := by exact_mod_cast h3
  omega

theorem randint_nonneg (lo hi : Int) (g : RNG) (h : 0 ≤ lo) :
    0 ≤ (randint lo hi g).1 := by
  unfold randint
  dsimp only
  omega

/-- C6: `place_order` returns `(0, none)` exactly on the MOQ gate
(`requested_qty ≤ 0` or below `min_order`); otherwise it returns the
capped quantity scaled by `fill_rate` and rounded, plus an arrival day
`day + lead_time` with the lead time drawn inclusively from the
configured range, consuming one draw from the stream. -/
theorem place_order_contract (s : Supplier) (sku : String) (req day : Int)
    (g : RNG) (hlt : s.lead_time_range.1 ≤ s.lead_time_range.2) :
    PlaceOrderContract s sku req day g := by
  constructor
  · constructor
    · intro hres
      by_contra hneg
      push_neg at hneg
      obtain ⟨h1, h2⟩ := hneg
      rw [Supplier.place_order, if_neg (by omega), if_neg (by omega)] at hres
      simp at hres
    · intro h
      unfold Supplier.place_order
      rcases h with h | h
      · rw [if_pos h]
      · by_cases h0 : req ≤ 0
        · rw [if_pos h0]
        · rw [if_neg h0, if_pos h]
  · intro hpos hmoq
    refine ⟨(randint s.lead_time_range.1 s.lead_time_range.2 g).1,
      (randint_mem _ _ g hlt).1, (randint_mem _ _ g hlt).2, ?_⟩
    rw [Supplier.place_order, if_neg (by omega), if_neg (by omega)]
    rfl

theorem place_order_contract_witness :
    suppEx.lead_time_range.1 ≤ suppEx.lead_time_range.2 ∧
    PlaceOrderContract suppEx "X1" 7 1 gEx :=
  ⟨by decide, place_order_contract suppEx "X1" 7 1 gEx (by decide)⟩

/-- C10: an order passing the MOQ gate whose fill-rate-scaled quantity
rounds to zero returns `(0, some arrival_day)` while consuming exactly
one lead-time draw, and `_place_orders` then enqueues no pending arrival
and charges no cost: the warehouse is left unchanged. -/
theorem zero_fill_order_no_effect (w : Warehouse) (sku : String)
    (req day : Int) (g : RNG) (it : InventoryItem)
    (hit : w.itemMap sku = some it)
    (hpos : 0 < req) (hmoq : it.supplier.min_order ≤ req)
    (hzero : pyRound (((min req it.supplier.max_supply_per_order : Int) : ℚ) *
      it.supplier.fill_rate) = 0) :
    it.supplier.place_order sku req day g =
      ((0, some (day + (randint it.supplier.lead_time_range.1
        it.supplier.lead_time_range.2 g).1)), ⟨g.stream, g.idx + 1⟩) ∧
    w.place_orders [(sku, req)] day g = (w, ⟨g.stream, g.idx + 1⟩) := by
  have hpo : it.supplier.place_order sku req day g =
      ((0, some (day + (randint it.supplier.lead_time_range.1
        it.supplier.lead_time_range.2 g).1)), ⟨g.stream, g.idx + 1⟩) := by
    rw [Supplier.place_order, if_neg (by omega), if_neg (by omega)]
    dsimp only
    rw [hzero]
    rfl
  refine ⟨hpo, ?_⟩
  rw [Warehouse.place_orders, ordersFold, if_neg (by omega), hit]
  dsimp only
  rw [hpo]
  rfl

theorem zero_fill_order_no_effect_witness :
    wC10.itemMap "T" = some itemT ∧ (0 : Int) < 10 ∧
    itemT.supplier.min_order ≤ 10 ∧
    pyRound (((min 10 itemT.supplier.max_supply_per_order : Int) : ℚ) *
      itemT.supplier.fill_rate) = 0 ∧
    (itemT.supplier.place_order "T" 10 1 gEx =
      ((0, some (1 + (randint itemT.supplier.lead_time_range.1
        itemT.supplier.lead_time_range.2 gEx).1)), ⟨gEx.stream, gEx.idx + 1⟩) ∧
     wC10.place_orders [("T", 10)] 1 gEx = (wC10, ⟨gEx.stream, gEx.idx + 1⟩)) :=
  ⟨rfl, by decide, by decide, by with_unfolding_all rfl,
   zero_fill_order_no_effect wC10 "T" 10 1 gEx itemT rfl (by decide)
     (by decide) (by with_unfolding_all rfl)⟩

/-- C7 counterexample: selling a negative quantity is not rejected — it
silently increases stock (10 to 15) with no change to lost sales, and
receiving a negative quantity silently decreases stock (10 to 6); no
domain error exists in either operation. -/
theorem sell_receive_negative_not_rejected :
    (itC7.sell (-5)).1.stock = 15 ∧ itC7.stock = 10 ∧
    (itC7.sell (-5)).1.lost_sales = itC7.lost_sales ∧
    (itC7.receive (-4)).1.stock = 6 := by decide

/-- C7 amended: `sell` and `receive` perform no domain check: for a
negative quantity the min-based arithmetic simply proceeds, so `sell`
increases stock by the magnitude (leaving `lost_sales` unchanged) and
`receive` decreases stock by the magnitude. -/
theorem sell_receive_negative_proceeds (it : InventoryItem) (qty : Int)
    (hq : qty < 0) (hs : 0 ≤ it.stock) :
    (it.sell qty).1.stock = it.stock - qty ∧
    (it.sell qty).1.lost_sales = it.lost_sales ∧
    (it.receive qty).1.stock = it.stock + qty := by
  unfold InventoryItem.sell InventoryItem.receive
  dsimp only
  have h1 : min it.stock qty = qty := min_eq_right (by omega)
  have h2 : min qty (max 0 (it.max_capacity - it.stock)) = qty :=
    min_eq_left (le_trans (le_of_lt hq) (le_max_left 0 _))
  rw [h1, h2]
  refine ⟨by omega, by omega, rfl⟩

theorem sell_receive_negative_proceeds_witness :
    (-5 : Int) < 0 ∧ (0 : Int) ≤ itC7.stock ∧
    ((itC7.sell (-5)).1.stock = itC7.stock - (-5) ∧
     (itC7.sell (-5)).1.lost_sales = itC7.lost_sales ∧
     (itC7.receive (-5)).1.stock = itC7.stock + (-5)) :=
  ⟨by decide, by decide,
   sell_receive_negative_proceeds itC7 (-5) (by decide) (by decide)⟩

/-- C1 counterexample: at day 3, the due pending arrival (2, 20) sits
behind the undue head (5, 10) of SKU "A"'s queue, so `_receive_arrivals`
releases nothing: the queue is unchanged (the due entry remains queued)
and the item's stock is untouched. -/
theorem receive_arrivals_skips_due_behind_undue :
    (wC1.receive_arrivals 3).incomingMap "A" = [(5, 10), (2, 20)] ∧
    ((2, 20) : Int × Int) ∈ (wC1.receive_arrivals 3).incomingMap "A" ∧
    (2 : Int) ≤ 3 ∧
    Option.map InventoryItem.stock ((wC1.receive_arrivals 3).itemMap "A") =
      some 10 := by decide

/-- C1 amended: per SKU, arrival processing releases exactly the maximal
prefix of the pending queue whose entries are due (`arrival_day ≤ today`),
crediting each released quantity via `receive` in queue order; a due
arrival behind a not-yet-due entry is left queued for that day. -/
theorem drainQueue_releases_due_prefix (day : Int) (q : List (Int × Int))
    (oit : Option InventoryItem) :
    drainQueue day q oit =
      (q.dropWhile (fun p => decide (p.1 ≤ day)),
       (q.takeWhile (fun p => decide (p.1 ≤ day))).foldl
         (fun o p => o.map (fun it => (it.receive p.2).1)) oit) := by
  induction q generalizing oit with
  | nil => rfl
  | cons hd tl ih =>
    obtain ⟨a, qty⟩ := hd
    by_cases h : a ≤ day
    · simp only [drainQueue, if_pos h, List.dropWhile, List.takeWhile,
        decide_eq_true h, List.foldl_cons, ih]
    · simp only [drainQueue, if_neg h, List.dropWhile, List.takeWhile,
        decide_eq_false h, List.foldl_nil]

/-- C2: the LP post-solve MOQ step escalates SKU "A"'s rounded order of 3
to 50 — the minimum of the last-iterated SKU "B"'s supplier — even though
"A"'s own supplier minimum is 2 and 3 already satisfies it.  This
evaluates the code at the failing input of the claim. -/
theorem lp_moq_rounding_uses_last_item :
    lpPostPlan wC2 LPStatus.optimal qvC2 = [("A", 50), ("B", 60)] ∧
    pyRound 3 = 3 ∧ itemA2.supplier.min_order = 2 ∧
    itemB2.supplier.min_order = 50 :=
  ⟨by with_unfolding_all rfl, by with_unfolding_all rfl, by decide, by decide⟩

/-- C3: `LPStrategy.plan` never inspects the solver status: with an
infeasible status and no variable values it still silently returns the
all-zero "order nothing" plan, identical to what it returns for an
optimal status with the same values. -/
theorem lp_infeasible_silently_returns_zero_plan :
    lpPostPlan wC3 LPStatus.infeasible (fun _ => none) = [("A", 0)] ∧
    lpPostPlan wC3 LPStatus.infeasible (fun _ => none) =
      lpPostPlan wC3 LPStatus.optimal (fun _ => none) :=
  ⟨by decide, rfl⟩

/-- C8: `simulate` is a deterministic function of the starting
configuration and the seeded stream: two runs from identical item and
supplier configurations with the same strategy, day count, start day and
seed produce identical end states — in particular identical
`stock_history`, `demand_history`, `reorder_history` and `cost_history`
sequences for every item. -/
theorem simulate_reproducible (strat : Strategy) (days : Nat) (start : Int)
    (w1 w2 : Warehouse) (g1 g2 : RNG) (hw : w1 = w2) (hg : g1 = g2) :
    w1.simulate strat days start g1 = w2.simulate strat days start g2 := by
  subst hw
  subst hg
  rfl

theorem simulate_reproducible_witness :
    wRun = wRun ∧ gEx = gEx ∧
    wRun.simulate stratA 3 1 gEx = wRun.simulate stratA 3 1 gEx :=
  ⟨rfl, rfl, simulate_reproducible stratA 3 1 wRun wRun gEx gEx rfl rfl⟩

theorem itemStockOk_receive (it : InventoryItem) (q : Int) (hq : 0 ≤ q)
    (h : ItemStockOk it) : ItemStockOk (it.receive q).1 := by
  obtain ⟨h1, h2, h3⟩ := h
  have hx : max 0 (it.max_capacity - it.stock) = it.max_capacity - it.stock :=
    max_eq_right (by omega)
  have ha : 0 ≤ min q (max 0 (it.max_capacity - it.stock)) := by
    rw [hx]
    exact le_min hq (by omega)
  have hb : min q (max 0 (it.max_capacity - it.stock)) ≤
      it.max_capacity - it.stock := by
    rw [hx]
    exact min_le_right _ _
  refine ⟨?_, ?_, h3⟩
  · show 0 ≤ it.stock + min q (max 0 (it.max_capacity - it.stock))
    omega
  · show it.stock + min q (max 0 (it.max_capacity - it.stock)) ≤ it.max_capacity
    omega

theorem itemStockOk_sell (it : InventoryItem) (q : Int) (hq : 0 ≤ q)
    (h : ItemStockOk it) : ItemStockOk (it.sell q).1 := by
  obtain ⟨h1, h2, h3⟩ := h
  have ha : min it.stock q ≤ it.stock := min_le_left _ _
  have hb : 0 ≤ min it.stock q := le_min h1 hq
  refine ⟨?_, ?_, h3⟩
  · show 0 ≤ it.stock - min it.stock q
    omega
  · show it.stock - min it.stock q ≤ it.max_capacity
    omega

theorem itemStockOk_add_cost (it : InventoryItem) (q : Int)
    (h : ItemStockOk it) : ItemStockOk (it.add_cost_for_order q) := by
  unfold InventoryItem.add_cost_for_order
  split
  · exact h
  · exact h

theorem itemStockOk_record (it : InventoryItem) (d r : Int)
    (h : ItemStockOk it) : ItemStockOk (it.record_day d r) := by
  obtain ⟨h1, h2, h3⟩ := h
  refine ⟨h1, h2, ?_⟩
  intro x hx
  rw [show (it.record_day d r).stock_history = it.stock_history ++ [it.stock]
    from rfl, List.mem_append] at hx
  rcases hx with hx | hx
  · exact h3 x hx
  · rw [List.mem_singleton] at hx
    subst hx
    exact ⟨h1, h2⟩

theorem drainQueue_stockOk (day : Int) (q : List (Int × Int))
    (oit : Option InventoryItem) (hq : ∀ p ∈ q, 0 ≤ p.2)
    (h : OptStockOk oit) :
    OptStockOk (drainQueue day q oit).2 ∧
      ∀ p ∈ (drainQueue day q oit).1, 0 ≤ p.2 := by
  induction q generalizing oit with
  | nil =>
    exact ⟨h, fun p hp => absurd hp (List.not_mem_nil p)⟩
  | cons hd tl ih =>
    obtain ⟨a, qty⟩ := hd
    by_cases hday : a ≤ day
    · have hq2 : 0 ≤ qty := hq (a, qty) (List.mem_cons_self _ _)
      have h2 : OptStockOk (Option.map (fun it => (it.receive qty).1) oit) := by
        cases oit with
        | none => exact trivial
        | some it => exact itemStockOk_receive it qty hq2 h
      have h3 := ih (Option.map (fun it => (it.receive qty).1) oit)
        (fun p hp => hq p (List.mem_cons_of_mem _ hp)) h2
      simpa only [drainQueue, if_pos hday] using h3
    · simp only [drainQueue, if_neg hday]
      exact ⟨h, hq⟩

theorem arrivalsFold_stockOk (day : Int) (keys : List String)
    (inc : String → List (Int × Int)) (m : String → Option InventoryItem)
    (hq : ∀ s, ∀ p ∈ inc s, 0 ≤ p.2) (hm : ∀ s, OptStockOk (m s)) :
    (∀ s, ∀ p ∈ (arrivalsFold day keys inc m).1 s, 0 ≤ p.2) ∧
      ∀ s, OptStockOk ((arrivalsFold day keys inc m).2 s) := by
  induction keys generalizing inc m with
  | nil => exact ⟨hq, hm⟩
  | cons sku rest ih =>
    have hd := drainQueue_stockOk day (inc sku) (m sku) (hq sku) (hm sku)
    simp only [arrivalsFold]
    refine ih _ _ ?_ ?_
    · intro s p hp
      by_cases hs : s = sku
      · rw [if_pos hs] at hp
        exact hd.2 p hp
      · rw [if_neg hs] at hp
        exact hq s p hp
    · intro s
      by_cases hs : s = sku
      · rw [if_pos hs]
        exact hd.1
      · rw [if_neg hs]
        exact hm s

theorem receive_arrivals_stockInv (w : Warehouse) (day : Int)
    (h : StockInv w) : StockInv (w.receive_arrivals day) := by
  have h1 := arrivalsFold_stockOk day w.incomingKeys w.incomingMap w.itemMap h.2 h.1
  exact ⟨h1.2, h1.1⟩

theorem sellFold_stockOk (keys : List String)
    (m : String → Option InventoryItem) (g : RNG) (ds : String → Int)
    (hm : ∀ s, OptStockOk (m s)) :
    ∀ s, OptStockOk ((sellFold keys m g ds).1 s) := by
  induction keys generalizing m g ds with
  | nil => exact hm
  | cons sku rest ih =>
    simp only [sellFold]
    refine ih _ _ _ ?_
    intro s
    by_cases hs : s = sku
    · rw [if_pos hs]
      have h0 := hm sku
      cases hmm : m sku with
      | none => exact trivial
      | some it =>
        rw [hmm] at h0
        exact itemStockOk_sell it _ (randint_nonneg 5 15 g (by omega)) h0
    · rw [if_neg hs]
      exact hm s

theorem ordersFold_stockInv (day : Int) (plan : List (String × Int))
    (w : Warehouse) (g : RNG) (h : StockInv w) :
    StockInv (ordersFold day plan w g).1 := by
  induction plan generalizing w g with
  | nil => exact h
  | cons hd rest ih =>
    obtain ⟨sku, req⟩ := hd
    simp only [ordersFold]
    by_cases hreq : req ≤ 0
    · rw [if_pos hreq]
      exact ih w g h
    · rw [if_neg hreq]
      cases hit : w.itemMap sku with
      | none => exact ih w g h
      | some it =>
        dsimp only
        cases harr : (it.supplier.place_order sku req day g).1.2 with
        | none => exact ih w _ h
        | some arrival =>
          dsimp only
          by_cases hacc : 0 < (it.supplier.place_order sku req day g).1.1
          · rw [if_pos hacc]
            refine ih _ _ ⟨?_, ?_⟩
            · intro s
              by_cases hs : s = sku
              · show OptStockOk (if s = sku then
                  some (it.add_cost_for_order
                    (it.supplier.place_order sku req day g).1.1)
                  else w.itemMap s)
                rw [if_pos hs]
                have h0 := h.1 sku
                rw [hit] at h0
                exact itemStockOk_add_cost it _ h0
              · show OptStockOk (if s = sku then
                  some (it.add_cost_for_order
                    (it.supplier.place_order sku req day g).1.1)
                  else w.itemMap s)
                rw [if_neg hs]
                exact h.1 s
            · intro s p hp
              dsimp only at hp
              by_cases hs : s = sku
              · rw [if_pos hs, List.mem_append] at hp
                rcases hp with hp | hp
                · exact h.2 sku p hp
                · rw [List.mem_singleton] at hp
                  subst hp
                  exact le_of_lt hacc
              · rw [if_neg hs] at hp
                exact h.2 s p hp
          · rw [if_neg hacc]
            exact ih w _ h

theorem place_orders_stockInv (w : Warehouse) (plan : List (String × Int))
    (day : Int) (g : RNG) (h : StockInv w) :
    StockInv (w.place_orders plan day g).1 :=
  ordersFold_stockInv day plan w g h

theorem recordFold_stockOk (ds pl : String → Int) (keys : List String)
    (m : String → Option InventoryItem) (hm : ∀ s, OptStockOk (m s)) :
    ∀ s, OptStockOk (recordFold ds pl keys m s) := by
  induction keys generalizing m with
  | nil => exact hm
  | cons sku rest ih =>
    simp only [recordFold]
    refine ih _ ?_
    intro s
    by_cases hs : s = sku
    · rw [if_pos hs]
      have h0 := hm sku
      cases hmm : m sku with
      | none => exact trivial
      | some it =>
        rw [hmm] at h0
        exact itemStockOk_record it _ _ h0
    · rw [if_neg hs]
      exact hm s

theorem simulate_day_stockInv (w : Warehouse) (strat : Strategy) (day : Int)
    (g : RNG) (h : StockInv w) : StockInv (w.simulate_day strat day g).1 := by
  have h1 := receive_arrivals_stockInv w day h
  have h2 := sellFold_stockOk (w.receive_arrivals day).itemKeys
    (w.receive_arrivals day).itemMap g (fun _ => 0) h1.1
  have hw2 : StockInv { w.receive_arrivals day with
      itemMap := (sellFold (w.receive_arrivals day).itemKeys
        (w.receive_arrivals day).itemMap g (fun _ => 0)).1 } := ⟨h2, h1.2⟩
  have h3 := place_orders_stockInv _
    (strat { w.receive_arrivals day with
      itemMap := (sellFold (w.receive_arrivals day).itemKeys
        (w.receive_arrivals day).itemMap g (fun _ => 0)).1 } day) day
    (sellFold (w.receive_arrivals day).itemKeys
      (w.receive_arrivals day).itemMap g (fun _ => 0)).2.1 hw2
  exact ⟨recordFold_stockOk _ _ _ _ h3.1, h3.2⟩

theorem simulate_stockInv (w : Warehouse) (strat : Strategy) (days : Nat)
    (start : Int) (g : RNG) (h : StockInv w) :
    StockInv (w.simulate strat days start g).1 := by
  induction days generalizing w start g with
  | zero => exact h
  | succ n ih =>
    simp only [Warehouse.simulate]
    exact ih _ _ _ (simulate_day_stockInv w strat start g h)

/-- C4: starting from any warehouse state satisfying the data-model
invariant (every item within `0 ≤ stock ≤ max_capacity` with in-range
recorded history, and non-negative queued arrival quantities — as holds
for a freshly registered warehouse with valid initial stock), every run
of `Warehouse.simulate` keeps `0 ≤ stock ≤ max_capacity` for every item
on every day; in particular every entry of every item's `stock_history`
lies in `[0, max_capacity]`. -/
theorem stock_capacity_invariant (strat : Strategy) (days : Nat)
    (start : Int) (w : Warehouse) (g : RNG) (h : StockInv w) :
    StockInv (w.simulate strat days start g).1 :=
  simulate_stockInv w strat days start g h

theorem stock_capacity_invariant_witness :
    StockInv wRun ∧ StockInv ((wRun.simulate stratA 3 1 gEx).1) := by
  have hInv : StockInv wRun := by
    constructor
    · intro s
      show OptStockOk (if s = itRun.sku then some itRun else none)
      by_cases hs : s = itRun.sku
      · rw [if_pos hs]
        show ItemStockOk itRun
        decide
      · rw [if_neg hs]
        exact trivial
    · intro s p hp
      exact absurd hp (List.not_mem_nil p)
  exact ⟨hInv, stock_capacity_invariant stratA 3 1 wRun gEx hInv⟩

theorem accFields_receive (it : InventoryItem) (q : Int) :
    accFields (it.receive q).1 = accFields it := rfl

theorem accFields_sell (it : InventoryItem) (q : Int) :
    accFields (it.sell q).1 = accFields it := rfl

theorem accFields_record (it : InventoryItem) (d r : Int) :
    accFields (it.record_day d r) = accFields it := rfl

theorem accAt_congr (log : List (String × Int)) (s : String)
    (o1 o2 : Option InventoryItem)
    (h : Option.map accFields o1 = Option.map accFields o2) :
    AccAt log s o2 → AccAt log s o1 := by
  cases o1 with
  | none => intro _; exact trivial
  | some it1 =>
    cases o2 with
    | none => exact absurd h (by simp)
    | some it2 =>
      intro h2
      have h3 : accFields it1 = accFields it2 := by
        injection h
      simp only [accFields, Prod.mk.injEq] at h3
      obtain ⟨e1, e2, e3, e4⟩ := h3
      obtain ⟨h2a, h2b⟩ := h2
      constructor
      · show it1.total_ordered = (ordersFor s log).sum
        rw [e1]
        exact h2a
      · show it1.total_cost =
          ((ordersFor s log).map (fun a : Int => it1.order_cost + (a : ℚ) * it1.unit_cost)).sum
        rw [e2, e3, e4]
        exact h2b

theorem accAt_log_ext (log1 log2 : List (String × Int)) (s : String)
    (o : Option InventoryItem) (he : ordersFor s log1 = ordersFor s log2) :
    AccAt log2 s o → AccAt log1 s o := by
  cases o with
  | none => intro _; exact trivial
  | some it =>
    intro h2
    obtain ⟨h2a, h2b⟩ := h2
    constructor
    · show it.total_ordered = (ordersFor s log1).sum
      rw [he]
      exact h2a
    · show it.total_cost =
        ((ordersFor s log1).map (fun a : Int => it.order_cost + (a : ℚ) * it.unit_cost)).sum
      rw [he]
      exact h2b

theorem ordersFor_append (s : String) (log : List (String × Int))
    (e : String × Int) :
    ordersFor s (log ++ [e]) =
      ordersFor s log ++ (if e.1 == s then [e.2] else []) := by
  unfold ordersFor
  rw [List.filter_append, List.map_append]
  congr 1
  by_cases he : (e.1 == s) = true
  · simp [List.filter, he]
  · simp [List.filter, he]

theorem drainQueue_accFields (day : Int) (q : List (Int × Int))
    (oit : Option InventoryItem) :
    Option.map accFields (drainQueue day q oit).2 = Option.map accFields oit := by
  induction q generalizing oit with
  | nil => rfl
  | cons hd tl ih =>
    obtain ⟨a, qty⟩ := hd
    by_cases hday : a ≤ day
    · simp only [drainQueue, if_pos hday]
      rw [ih]
      cases oit with
      | none => rfl
      | some it => rfl
    · simp only [drainQueue, if_neg hday]

theorem arrivalsFold_accFields (day : Int) (keys : List String)
    (inc : String → List (Int × Int)) (m : String → Option InventoryItem) :
    ∀ s, Option.map accFields ((arrivalsFold day keys inc m).2 s) =
      Option.map accFields (m s) := by
  induction keys generalizing inc m with
  | nil => intro s; rfl
  | cons sku rest ih =>
    intro s
    simp only [arrivalsFold]
    rw [ih]
    by_cases hs : s = sku
    · rw [if_pos hs, hs]
      exact drainQueue_accFields day (inc sku) (m sku)
    · rw [if_neg hs]

theorem sellFold_accFields (keys : List String)
    (m : String → Option InventoryItem) (g : RNG) (ds : String → Int) :
    ∀ s, Option.map accFields ((sellFold keys m g ds).1 s) =
      Option.map accFields (m s) := by
  induction keys generalizing m g ds with
  | nil => intro s; rfl
  | cons sku rest ih =>
    intro s
    simp only [sellFold]
    rw [ih]
    by_cases hs : s = sku
    · rw [if_pos hs, hs]
      cases m sku with
      | none => rfl
      | some it => rfl
    · rw [if_neg hs]

theorem recordFold_accFields (ds pl : String → Int) (keys : List String)
    (m : String → Option InventoryItem) :
    ∀ s, Option.map accFields (recordFold ds pl keys m s) =
      Option.map accFields (m s) := by
  induction keys generalizing m with
  | nil => intro s; rfl
  | cons sku rest ih =>
    intro s
    simp only [recordFold]
    rw [ih]
    by_cases hs : s = sku
    · rw [if_pos hs, hs]
      cases m sku with
      | none => rfl
      | some it => rfl
    · rw [if_neg hs]

theorem ordersFold_accInv (day : Int) (plan : List (String × Int))
    (w : Warehouse) (g : RNG) (h : AccInv w) :
    AccInv (ordersFold day plan w g).1 := by
  induction plan generalizing w g with
  | nil => exact h
  | cons hd rest ih =>
    obtain ⟨sku, req⟩ := hd
    simp only [ordersFold]
    by_cases hreq : req ≤ 0
    · rw [if_pos hreq]
      exact ih w g h
    · rw [if_neg hreq]
      cases hit : w.itemMap sku with
      | none => exact ih w g h
      | some it =>
        dsimp only
        cases harr : (it.supplier.place_order sku req day g).1.2 with
        | none => exact ih w _ h
        | some arrival =>
          dsimp only
          by_cases hacc : 0 < (it.supplier.place_order sku req day g).1.1
          · rw [if_pos hacc]
            refine ih _ _ ?_
            intro s
            dsimp only
            by_cases hs : s = sku
            · rw [if_pos hs, hs]
              have h0 := h sku
              rw [hit] at h0
              obtain ⟨h0a, h0b⟩ := h0
              rw [InventoryItem.add_cost_for_order, if_neg (by omega)]
              constructor
              · show it.total_ordered + (it.supplier.place_order sku req day g).1.1 =
                  (ordersFor sku (w.orderLog ++
                    [(sku, (it.supplier.place_order sku req day g).1.1)])).sum
                rw [ordersFor_append]
                simp only [beq_self_eq_true, if_pos]
                rw [List.sum_append, h0a]
                simp
              · show it.total_cost + (it.order_cost +
                    ((it.supplier.place_order sku req day g).1.1 : ℚ) * it.unit_cost) =
                  ((ordersFor sku (w.orderLog ++
                    [(sku, (it.supplier.place_order sku req day g).1.1)])).map
                      (fun a : Int => it.order_cost + (a : ℚ) * it.unit_cost)).sum
                rw [ordersFor_append]
                simp only [beq_self_eq_true, if_pos]
                rw [List.map_append, List.sum_append, h0b]
                simp
            · rw [if_neg hs]
              refine accAt_log_ext _ w.orderLog s _ ?_ (h s)
              rw [ordersFor_append]
              have hne : (sku == s) = false := by
                simp
                exact fun he => hs he.symm
              rw [hne]
              simp
          · rw [if_neg hacc]
            exact ih w _ h

theorem receive_arrivals_accInv (w : Warehouse) (day : Int) (h : AccInv w) :
    AccInv (w.receive_arrivals day) := by
  intro s
  exact accAt_congr _ s _ _
    (arrivalsFold_accFields day w.incomingKeys w.incomingMap w.itemMap s) (h s)

theorem simulate_day_accInv (w : Warehouse) (strat : Strategy) (day : Int)
    (g : RNG) (h : AccInv w) : AccInv (w.simulate_day strat day g).1 := by
  have h1 := receive_arrivals_accInv w day h
  have h2 : AccInv { w.receive_arrivals day with
      itemMap := (sellFold (w.receive_arrivals day).itemKeys
        (w.receive_arrivals day).itemMap g (fun _ => 0)).1 } := by
    intro s
    exact accAt_congr _ s _ _
      (sellFold_accFields (w.receive_arrivals day).itemKeys
        (w.receive_arrivals day).itemMap g (fun _ => 0) s) (h1 s)
  have h3 := ordersFold_accInv day
    (strat { w.receive_arrivals day with
      itemMap := (sellFold (w.receive_arrivals day).itemKeys
        (w.receive_arrivals day).itemMap g (fun _ => 0)).1 } day)
    { w.receive_arrivals day with
      itemMap := (sellFold (w.receive_arrivals day).itemKeys
        (w.receive_arrivals day).itemMap g (fun _ => 0)).1 }
    (sellFold (w.receive_arrivals day).itemKeys
      (w.receive_arrivals day).itemMap g (fun _ => 0)).2.1 h2
  intro s
  exact accAt_congr _ s _ _ (recordFold_accFields _ _ _ _ s) (h3 s)

theorem simulate_accInv (w : Warehouse) (strat : Strategy) (days : Nat)
    (start : Int) (g : RNG) (h : AccInv w) :
    AccInv (w.simulate strat days start g).1 := by
  induction days generalizing w start g with
  | zero => exact h
  | succ n ih =>
    simp only [Warehouse.simulate]
    exact ih _ _ _ (simulate_day_accInv w strat start g h)

/-- C5: after any run of `simulate` started with zero counters and an
empty order log, every item's `total_ordered` equals the sum of the
accepted quantities of its successful supplier orders, and `total_cost`
equals the sum of `order_cost + accepted_qty * unit_cost` over the same
orders; rejected orders (accepted = 0) are never logged and change
neither counter. -/
theorem total_cost_accounting (strat : Strategy) (days : Nat) (start : Int)
    (w : Warehouse) (g : RNG) (h : FreshCounters w) :
    AccInv (w.simulate strat days start g).1 := by
  have h0 : AccInv w := by
    intro s
    cases hmm : w.itemMap s with
    | none => exact trivial
    | some it =>
      have h2 := h.2 s it hmm
      rw [h.1]
      constructor
      · show it.total_ordered = (ordersFor s []).sum
        rw [h2.1]
        rfl
      · show it.total_cost =
          ((ordersFor s []).map (fun a : Int => it.order_cost + (a : ℚ) * it.unit_cost)).sum
        rw [h2.2]
        rfl
  exact simulate_accInv w strat days start g h0

theorem total_cost_accounting_witness :
    FreshCounters wRun ∧ AccInv ((wRun.simulate stratA 3 1 gEx).1) := by
  have hF : FreshCounters wRun := by
    constructor
    · rfl
    · intro s it hmm
      have hmm2 : (if s = itRun.sku then some itRun else none) = some it := hmm
      by_cases hs : s = itRun.sku
      · rw [if_pos hs] at hmm2
        injection hmm2 with hmm3
        rw [← hmm3]
        exact ⟨rfl, rfl⟩
      · rw [if_neg hs] at hmm2
        exact Option.noConfusion hmm2
  exact ⟨hF, total_cost_accounting stratA 3 1 wRun gEx hF⟩

theorem servFields_receive (it : InventoryItem) (q : Int) :
    servFields (it.receive q).1 = servFields it := rfl

theorem servFields_add_cost (it : InventoryItem) (q : Int) :
    servFields (it.add_cost_for_order q) = servFields it := by
  unfold InventoryItem.add_cost_for_order
  split
  · rfl
  · rfl

theorem servAt_congr (o1 o2 : Option InventoryItem)
    (h : Option.map servFields o1 = Option.map servFields o2) :
    ServAt o2 → ServAt o1 := by
  cases o1 with
  | none => intro _; exact trivial
  | some it1 =>
    cases o2 with
    | none => exact absurd h (by simp)
    | some it2 =>
      intro h2
      have h3 : servFields it1 = servFields it2 := by injection h
      simp only [servFields, Prod.mk.injEq] at h3
      obtain ⟨e1, e2⟩ := h3
      obtain ⟨h2a, h2b⟩ := h2
      constructor
      · show 0 ≤ it1.lost_sales
        rw [e1]
        exact h2a
      · show it1.lost_sales ≤ it1.demand_history.sum
        rw [e1, e2]
        exact h2b

theorem drainQueue_servFields (day : Int) (q : List (Int × Int))
    (oit : Option InventoryItem) :
    Option.map servFields (drainQueue day q oit).2 =
      Option.map servFields oit := by
  induction q generalizing oit with
  | nil => rfl
  | cons hd tl ih =>
    obtain ⟨a, qty⟩ := hd
    by_cases hday : a ≤ day
    · simp only [drainQueue, if_pos hday]
      rw [ih]
      cases oit with
      | none => rfl
      | some it => rfl
    · simp only [drainQueue, if_neg hday]

theorem arrivalsFold_servFields (day : Int) (keys : List String)
    (inc : String → List (Int × Int)) (m : String → Option InventoryItem) :
    ∀ s, Option.map servFields ((arrivalsFold day keys inc m).2 s) =
      Option.map servFields (m s) := by
  induction keys generalizing inc m with
  | nil => intro s; rfl
  | cons sku rest ih =>
    intro s
    simp only [arrivalsFold]
    rw [ih]
    by_cases hs : s = sku
    · rw [if_pos hs, hs]
      exact drainQueue_servFields day (inc sku) (m sku)
    · rw [if_neg hs]

theorem ordersFold_itemKeys (day : Int) (plan : List (String × Int))
    (w : Warehouse) (g : RNG) :
    (ordersFold day plan w g).1.itemKeys = w.itemKeys := by
  induction plan generalizing w g with
  | nil => rfl
  | cons hd rest ih =>
    obtain ⟨sku, req⟩ := hd
    simp only [ordersFold]
    by_cases hreq : req ≤ 0
    · rw [if_pos hreq]
      exact ih w g
    · rw [if_neg hreq]
      cases w.itemMap sku with
      | none => exact ih w g
      | some it =>
        dsimp only
        cases (it.supplier.place_order sku req day g).1.2 with
        | none => exact ih w _
        | some arrival =>
          dsimp only
          by_cases hacc : 0 < (it.supplier.place_order sku req day g).1.1
          · rw [if_pos hacc, ih]
          · rw [if_neg hacc]
            exact ih w _

theorem ordersFold_servFields (day : Int) (plan : List (String × Int))
    (w : Warehouse) (g : RNG) :
    ∀ t, Option.map servFields ((ordersFold day plan w g).1.itemMap t) =
      Option.map servFields (w.itemMap t) := by
  induction plan generalizing w g with
  | nil => intro t; rfl
  | cons hd rest ih =>
    obtain ⟨sku, req⟩ := hd
    intro t
    simp only [ordersFold]
    by_cases hreq : req ≤ 0
    · rw [if_pos hreq]
      exact ih w g t
    · rw [if_neg hreq]
      cases hit : w.itemMap sku with
      | none => exact ih w g t
      | some it =>
        dsimp only
        cases harr : (it.supplier.place_order sku req day g).1.2 with
        | none => exact ih w _ t
        | some arrival =>
          dsimp only
          by_cases hacc : 0 < (it.supplier.place_order sku req day g).1.1
          · rw [if_pos hacc, ih]
            dsimp only
            by_cases hs : t = sku
            · rw [if_pos hs, hs, hit]
              show some (servFields (it.add_cost_for_order
                (it.supplier.place_order sku req day g).1.1)) =
                some (servFields it)
              rw [servFields_add_cost]
            · rw [if_neg hs]
          · rw [if_neg hacc]
            exact ih w _ t

theorem sellFold_spec (keys : List String)
    (m : String → Option InventoryItem) (g : RNG) (ds0 : String → Int)
    (hnd : keys.Nodup) :
    (∀ s, s ∉ keys → (sellFold keys m g ds0).1 s = m s ∧
      (sellFold keys m g ds0).2.2 s = ds0 s) ∧
    (∀ s ∈ keys, 5 ≤ (sellFold keys m g ds0).2.2 s ∧
      (sellFold keys m g ds0).2.2 s ≤ 15 ∧
      (sellFold keys m g ds0).1 s =
        Option.map (fun it => (it.sell ((sellFold keys m g ds0).2.2 s)).1) (m s)) := by
  induction keys generalizing m g ds0 with
  | nil =>
    constructor
    · intro s _
      exact ⟨rfl, rfl⟩
    · intro s hs
      exact absurd hs (List.not_mem_nil s)
  | cons sku rest ih =>
    obtain ⟨hnotin, hrest⟩ := List.nodup_cons.mp hnd
    have IH := ih
      (fun s => if s = sku then
        (m sku).map (fun it => (it.sell (randint 5 15 g).1).1) else m s)
      (randint 5 15 g).2
      (fun s => if s = sku then (randint 5 15 g).1 else ds0 s) hrest
    constructor
    · intro s hs
      have hs1 : s ≠ sku := fun he => hs (he ▸ List.mem_cons_self _ _)
      have hs2 : s ∉ rest := fun he => hs (List.mem_cons_of_mem _ he)
      simp only [sellFold]
      constructor
      · rw [(IH.1 s hs2).1]
        simp only [if_neg hs1]
      · rw [(IH.1 s hs2).2]
        simp only [if_neg hs1]
    · intro s hs
      rcases List.mem_cons.mp hs with he | he
      · subst he
        have e := IH.1 s hnotin
        simp only [sellFold]
        refine ⟨?_, ?_, ?_⟩
        · rw [e.2]
          simp only [if_pos rfl]
          exact (randint_mem 5 15 g (by omega)).1
        · rw [e.2]
          simp only [if_pos rfl]
          exact (randint_mem 5 15 g (by omega)).2
        · rw [e.1, e.2]
          simp only [if_pos rfl]
          rfl
      · have hs1 : s ≠ sku := fun heq => hnotin (heq ▸ he)
        have e := IH.2 s he
        simp only [sellFold]
        refine ⟨e.1, e.2.1, ?_⟩
        rw [e.2.2]
        simp only [if_neg hs1]

theorem recordFold_spec (ds pl : String → Int) (keys : List String)
    (m : String → Option InventoryItem) (hnd : keys.Nodup) :
    (∀ s, s ∉ keys → recordFold ds pl keys m s = m s) ∧
    (∀ s ∈ keys, recordFold ds pl keys m s =
      Option.map (fun it => it.record_day (ds s) (pl s)) (m s)) := by
  induction keys generalizing m with
  | nil =>
    exact ⟨fun s _ => rfl, fun s hs => absurd hs (List.not_mem_nil s)⟩
  | cons sku rest ih =>
    obtain ⟨hnotin, hrest⟩ := List.nodup_cons.mp hnd
    have IH := ih
      (fun s => if s = sku then
        (m sku).map (fun it => it.record_day (ds sku) (pl sku)) else m s) hrest
    constructor
    · intro s hs
      have hs1 : s ≠ sku := fun he => hs (he ▸ List.mem_cons_self _ _)
      have hs2 : s ∉ rest := fun he => hs (List.mem_cons_of_mem _ he)
      simp only [recordFold]
      rw [IH.1 s hs2]
      simp only [if_neg hs1]
    · intro s hs
      rcases List.mem_cons.mp hs with he | he
      · subst he
        simp only [recordFold]
        rw [IH.1 s hnotin]
        simp only [if_pos rfl]
        rfl
      · have hs1 : s ≠ sku := fun heq => hnotin (heq ▸ he)
        simp only [recordFold]
        rw [IH.2 s he]
        simp only [if_neg hs1]

theorem simulate_day_itemKeys (w : Warehouse) (strat : Strategy) (day : Int)
    (g : RNG) : (w.simulate_day strat day g).1.itemKeys = w.itemKeys := by
  unfold Warehouse.simulate_day Warehouse.place_orders
  dsimp only
  rw [ordersFold_itemKeys]
  rfl

theorem simulate_day_servInv (w : Warehouse) (strat : Strategy) (day : Int)
    (g : RNG) (hnd : w.itemKeys.Nodup) (hstock : StockInv w)
    (hserv : ServInv w) : ServInv (w.simulate_day strat day g).1 := by
  have hstock1 : StockInv (w.receive_arrivals day) :=
    receive_arrivals_stockInv w day hstock
  have hserv1 : ServInv (w.receive_arrivals day) := fun s =>
    servAt_congr _ _
      (arrivalsFold_servFields day w.incomingKeys w.incomingMap w.itemMap s)
      (hserv s)
  have hnd1 : (w.receive_arrivals day).itemKeys.Nodup := hnd
  have hsp := sellFold_spec (w.receive_arrivals day).itemKeys
    (w.receive_arrivals day).itemMap g (fun _ => 0) hnd1
  unfold Warehouse.simulate_day Warehouse.place_orders
  dsimp only
  set w1 := w.receive_arrivals day with hw1def
  set sd := sellFold w1.itemKeys w1.itemMap g (fun _ => 0) with hsddef
  set w2 : Warehouse := { w1 with itemMap := sd.1 } with hw2def
  set plan := strat w2 day with hplandef
  set po := ordersFold day plan w2 sd.2.1 with hpodef
  have hkeys2 : po.1.itemKeys = w1.itemKeys := by
    rw [hpodef]
    rw [ordersFold_itemKeys]
  have hserv2 : ∀ t, Option.map servFields (po.1.itemMap t) =
      Option.map servFields (sd.1 t) := by
    intro t
    rw [hpodef]
    rw [ordersFold_servFields]
  have hrec := recordFold_spec sd.2.2 (planGet plan) po.1.itemKeys po.1.itemMap
    (by rw [hkeys2]; exact hnd1)
  intro s
  dsimp only
  by_cases hmem : s ∈ po.1.itemKeys
  · rw [hrec.2 s hmem]
    have hmem1 : s ∈ w1.itemKeys := by
      rw [← hkeys2]
      exact hmem
    have hs1 := hsp.2 s hmem1
    cases h1 : w1.itemMap s with
    | none =>
      have h2 : sd.1 s = none := by
        rw [hs1.2.2, h1]
        rfl
      have h3 : Option.map servFields (po.1.itemMap s) = none := by
        rw [hserv2 s, h2]
        rfl
      have h4 : po.1.itemMap s = none := by
        cases hh : po.1.itemMap s with
        | none => rfl
        | some x =>
          rw [hh] at h3
          exact absurd h3 (by simp)
      rw [h4]
      exact trivial
    | some it1 =>
      have h2 : sd.1 s = some (it1.sell (sd.2.2 s)).1 := by
        rw [hs1.2.2, h1]
        rfl
      have h3 : Option.map servFields (po.1.itemMap s) =
          some (servFields (it1.sell (sd.2.2 s)).1) := by
        rw [hserv2 s, h2]
        rfl
      cases hh : po.1.itemMap s with
      | none =>
        rw [hh] at h3
        exact absurd h3 (by simp)
      | some it3 =>
        rw [hh] at h3
        have h5 : servFields it3 = servFields (it1.sell (sd.2.2 s)).1 := by
          injection h3
        simp only [servFields, Prod.mk.injEq] at h5
        obtain ⟨e1, e2⟩ := h5
        have e1b : it3.lost_sales =
            it1.lost_sales + (sd.2.2 s - min it1.stock (sd.2.2 s)) := e1
        have e2b : it3.demand_history = it1.demand_history := e2
        have hs0 := hserv1 s
        rw [h1] at hs0
        obtain ⟨ha, hb⟩ := hs0
        have hstk := hstock1.1 s
        rw [h1] at hstk
        have hstk1 : 0 ≤ it1.stock := hstk.1
        have hd5 : 5 ≤ sd.2.2 s := hs1.1
        have hmin1 : min it1.stock (sd.2.2 s) ≤ sd.2.2 s := min_le_right _ _
        have hmin0 : 0 ≤ min it1.stock (sd.2.2 s) := le_min hstk1 (by omega)
        constructor
        · show 0 ≤ it3.lost_sales
          omega
        · show it3.lost_sales ≤ (it3.demand_history ++ [sd.2.2 s]).sum
          rw [List.sum_append, e2b]
          simp only [List.sum_cons, List.sum_nil]
          omega
  · rw [hrec.1 s hmem]
    have hmem1 : s ∉ w1.itemKeys := by
      rw [← hkeys2]
      exact hmem
    have hs1 := hsp.1 s hmem1
    have h2 : Option.map servFields (po.1.itemMap s) =
        Option.map servFields (w1.itemMap s) := by
      rw [hserv2 s, hs1.1]
    exact servAt_congr _ _ h2 (hserv1 s)

theorem simulate_servInv (w : Warehouse) (strat : Strategy) (days : Nat)
    (start : Int) (g : RNG) (hnd : w.itemKeys.Nodup) (hstock : StockInv w)
    (hserv : ServInv w) : ServInv (w.simulate strat days start g).1 := by
  induction days generalizing w start g with
  | zero => exact hserv
  | succ n ih =>
    simp only [Warehouse.simulate]
    refine ih _ _ _ ?_ ?_ ?_
    · rw [simulate_day_itemKeys]
      exact hnd
    · exact simulate_day_stockInv w strat start g hstock
    · exact simulate_day_servInv w strat start g hnd hstock hserv

theorem totals_bounds (w : Warehouse) (h : ServInv w) :
    0 ≤ w.totalLost ∧ w.totalLost ≤ w.totalDemand := by
  constructor
  · apply List.sum_nonneg
    intro x hx
    rw [List.mem_map] at hx
    obtain ⟨s, hs, hxe⟩ := hx
    subst hxe
    cases hmm : w.itemMap s with
    | none => exact le_refl 0
    | some it =>
      have h2 := h s
      rw [hmm] at h2
      exact h2.1
  · apply List.sum_le_sum
    intro s hs
    cases hmm : w.itemMap s with
    | none => exact le_refl 0
    | some it =>
      have h2 := h s
      rw [hmm] at h2
      exact h2.2

/-- C9: after any run of `simulate` started from a fresh, valid warehouse
(distinct SKUs, zero lost sales, empty demand histories, in-range stocks),
`compute_service_level()` equals `1 - total_lost/total_demand` over all
items and days, lies in `[0, 1]` whenever cumulative demand is positive,
and equals exactly 1 when cumulative demand is zero. -/
theorem service_level_spec_holds (strat : Strategy) (days : Nat)
    (start : Int) (w : Warehouse) (g : RNG) (hnd : w.itemKeys.Nodup)
    (hstock : StockInv w) (hfresh : FreshServ w) :
    ServiceLevelSpec (w.simulate strat days start g).1 := by
  have hserv : ServInv w := by
    intro s
    cases hmm : w.itemMap s with
    | none => exact trivial
    | some it =>
      have h2 := hfresh s it hmm
      constructor
      · rw [h2.1]
      · rw [h2.1, h2.2]
        exact le_refl 0
  have hfin := simulate_servInv w strat days start g hnd hstock hserv
  have hb := totals_bounds _ hfin
  constructor
  · intro hzero
    unfold Warehouse.compute_service_level
    rw [if_pos (by omega)]
  · intro hposd
    have hcs : (w.simulate strat days start g).1.compute_service_level =
        1 - ((w.simulate strat days start g).1.totalLost : ℚ) /
          ((w.simulate strat days start g).1.totalDemand : ℚ) := by
      unfold Warehouse.compute_service_level
      rw [if_neg (by omega)]
    have h1 : ((w.simulate strat days start g).1.totalLost : ℚ) ≤
        ((w.simulate strat days start g).1.totalDemand : ℚ) := by
      exact_mod_cast hb.2
    have h0 : (0 : ℚ) ≤ ((w.simulate strat days start g).1.totalLost : ℚ) := by
      exact_mod_cast hb.1
    have h2 : (0 : ℚ) < ((w.simulate strat days start g).1.totalDemand : ℚ) := by
      exact_mod_cast hposd
    refine ⟨hcs, ?_, ?_⟩
    · rw [hcs]
      have h3 := (div_le_one h2).mpr h1
      linarith
    · rw [hcs]
      have h4 := div_nonneg h0 (le_of_lt h2)
      linarith

theorem service_level_spec_witness :
    wRun.itemKeys.Nodup ∧ StockInv wRun ∧ FreshServ wRun ∧
    ServiceLevelSpec ((wRun.simulate stratA 3 1 gEx).1) := by
  have hnd : wRun.itemKeys.Nodup := by decide
  have hstock : StockInv wRun := by
    constructor
    · intro s
      show OptStockOk (if s = itRun.sku then some itRun else none)
      by_cases hs : s = itRun.sku
      · rw [if_pos hs]
        show ItemStockOk itRun
        decide
      · rw [if_neg hs]
        exact trivial
    · intro s p hp
      exact absurd hp (List.not_mem_nil p)
  have hfresh : FreshServ wRun := by
    intro s it hmm
    have hmm2 : (if s = itRun.sku then some itRun else none) = some it := hmm
    by_cases hs : s = itRun.sku
    · rw [if_pos hs] at hmm2
      injection hmm2 with hmm3
      rw [← hmm3]
      exact ⟨rfl, rfl⟩
    · rw [if_neg hs] at hmm2
      exact Option.noConfusion hmm2
  exact ⟨hnd, hstock, hfresh,
    service_level_spec_holds stratA 3 1 wRun gEx hnd hstock hfresh⟩

end Restock
